import Mathlib

/-!
Verification of the MHTML repacking engine in `mht_unpack.py`.

The development shallowly embeds the Python source.  External library
collaborators (the `magic` content sniffer, the `mimetypes` registry, the
SHA-256/base64 digest, `urllib.parse`'s `urljoin`/`urlsplit`, and the
BeautifulSoup HTML parser/serializer) are modelled as function-valued fields
of an environment record `Env`; everything written in the module itself is
translated definition by definition.
-/

namespace MhtUnpack

/-- The value of `part.get_payload(decode=True)` as the renderer sees it:
either a byte sequence or (in the dead textual branch of `render`) a string. -/
inductive Payload where
  | bytes (bs : List Nat) : Payload
  | str (s : String) : Payload
deriving DecidableEq

/-- One MIME part as the module reads it: `get_content_type()`,
`get_payload(decode=True)` and the headers it consults. -/
structure Part where
  contentType : String
  payload : Payload
  contentLocation : Option String
  contentBase : Option String
  contentId : Option String
  startParam : Option String
deriving DecidableEq

/-- Result of `urllib.parse.urlsplit` restricted to the two components the
module reads (`scheme` and `path`). -/
structure UrlSplit where
  scheme : String
  path : String
deriving DecidableEq

/-- One markup element: its tag name and its attribute dictionary. -/
structure Tag where
  name : String
  attrs : List (String × String)
deriving DecidableEq

/-- A node of the parsed document: `doc.descendants` yields both `bs4.Tag`
elements and non-element nodes (text, comments); the loop in `render` skips
the latter via an `isinstance` check. -/
inductive Node where
  | tagNode (t : Tag) : Node
  | textNode : Node
deriving DecidableEq

/-- A parsed document: its descendants in document order. -/
structure Doc where
  nodes : List Node
deriving DecidableEq

/-- The external collaborators, packaged as one record.  `magic` is `none`
when the `filemagic` import failed (module-level `try`/`except`); the inner
`Option` result is `none` when `id_buffer` raised or returned nothing. -/
structure Env where
  magic : Option (Payload → Option String)
  guessAllExtensions : String → List String
  sha256b64 : Payload → String
  urljoin : String → String → String
  urlsplit : String → UrlSplit
  parseHtml : Payload → Doc
  encodeDoc : Doc → List Nat

/-- The process-wide `common_types` dictionary, modelled as an association
list; lookup takes the first matching key and assignment conses a fresh key. -/
def ExtState : Type := List (String × String)

/-- First-match association-list lookup (a Python dict read). -/
def alookup {α : Type} : List (String × α) → String → Option α
  | [], _ => none
  | (k, x) :: r, s => if k = s then some x else alookup r s

/-- Python `str.lower` on one character, for the ASCII range that mime types
use. -/
def lowerChar (c : Char) : Char :=
  if 65 ≤ c.toNat ∧ c.toNat ≤ 90 then Char.ofNat (c.toNat + 32) else c

/-- Python `str.lower` (`mime_type.lower()` in `find_extension`). -/
def strLower (s : String) : String := ⟨s.data.map lowerChar⟩

/-- The initial contents of the `common_types` table. -/
def common_types : ExtState :=
  [("text/html", ".html"),
   ("text/plain", ".txt"),
   ("application/octet-stream", ".data"),
   ("image/jpeg", ".jpg")]

/-- `find_extension(mime_type)`: lower-case the argument, consult the
(mutable) `common_types` cache, and on a miss sort the registry candidates,
append the empty string, take the head and cache it.  The state is threaded
explicitly; the diagnostic `print` is ignored. -/
def find_extension (env : Env) (st : ExtState) (mime_type : String) :
    String × ExtState :=
  let m := strLower mime_type
  match alookup st m with
  | some ext => (ext, st)
  | none =>
      let exts := (List.insertionSort (· ≤ ·) (env.guessAllExtensions m)) ++ [""]
      let ext := exts.headD ""
      (ext, (m, ext) :: st)

/-- Bool test that `n` occurs at the start of `h`. -/
def listStarts : List Char → List Char → Bool
  | [], _ => true
  | _ :: _, [] => false
  | a :: n, b :: h => a == b && listStarts n h

/-- Bool test that `n` occurs contiguously somewhere in `h`. -/
def hasSubList (n : List Char) : List Char → Bool
  | [] => listStarts n []
  | b :: h => listStarts n (b :: h) || hasSubList n h

/-- Python's `needle in hay` on strings. -/
def strHasSub (needle hay : String) : Bool := hasSubList needle.data hay.data

/-- Python `str.strip()`: drop leading and trailing whitespace. -/
def pyStrip (s : String) : String :=
  ⟨((s.data.dropWhile Char.isWhitespace).reverse.dropWhile Char.isWhitespace).reverse⟩

/-- The derived view `PartHelper` of a part: effective content type (with the
sniffing fallback), payload, extension hint and URL-safe base64 SHA-256
digest. -/
structure PartHelper where
  part : Part
  content_type : String
  payload : Payload
  extension : String
  digest : String

/-- `PartHelper.__init__`: resolve the effective mime type (sniffing when the
declared type is empty or contains `octet-stream`, keeping the declared type
when sniffing is unavailable, raises, or yields nothing), compute the
extension through the shared cache, and digest the payload.  The final
`if not mime: mime = ""` is the identity on strings and is dropped. -/
def PartHelper.init (env : Env) (st : ExtState) (p : Part) :
    PartHelper × ExtState :=
  let mime := p.contentType
  let payload := p.payload
  let sniffed : Option String :=
    match env.magic with
    | some f => f payload
    | none => none
  let mime1 :=
    if mime = "" || strHasSub "octet-stream" mime then
      match sniffed with
      | some s => if s = "" then mime else s
      | none => mime
    else mime
  let r := find_extension env st mime1
  ({ part := p, content_type := mime1, payload := payload,
     extension := r.1, digest := env.sha256b64 payload }, r.2)

/-- A Python-level error raised by the module. -/
inductive PyErr where
  | nameError (n : String) : PyErr
deriving DecidableEq

/-- The reference index built by `Mapped.__init__`: location and content-ID
tables mapping keys to parts. -/
structure Index where
  by_loc : List (String × Part)
  by_id : List (String × Part)

/-- All parts reachable through either table of the index. -/
def Index.parts (idx : Index) : List Part :=
  idx.by_loc.map Prod.snd ++ idx.by_id.map Prod.snd

/-- The digests of the indexed parts: the only keys `render_data` can ever
add to the guard set when called from `render`. -/
def allDigests (env : Env) (idx : Index) : Finset String :=
  (idx.parts.map (fun p => env.sha256b64 p.payload)).toFinset

/-- `Mapped.refs`: the static element-name to reference-attribute table. -/
def Mapped.refs : List (String × List String) :=
  [("a", ["href"]),
   ("applet", ["codebase"]),
   ("area", ["href"]),
   ("audio", ["src"]),
   ("blockquote", ["cite"]),
   ("body", ["background"]),
   ("button", ["formaction"]),
   ("command", ["icon"]),
   ("del", ["cite"]),
   ("embed", ["src"]),
   ("form", ["action"]),
   ("frame", ["longdesc", "src"]),
   ("head", ["profile"]),
   ("html", ["manifest"]),
   ("iframe", ["longdesc", "src"]),
   ("img", ["longdesc", "src", "usemap"]),
   ("input", ["formaction", "src", "usemap"]),
   ("ins", ["cite"]),
   ("link", ["href"]),
   ("object", ["classid", "codebase", "data", "usemap"]),
   ("q", ["cite"]),
   ("script", ["src"]),
   ("source", ["src"]),
   ("track", ["src"]),
   ("video", ["poster", "src"])]

/-- `Mapped.refs.get(tag.name, ())`. -/
def refsFor (name : String) : List String := (alookup Mapped.refs name).getD []

/-- `tag.get(attr, ...)`: first-match read of the attribute dictionary. -/
def getAttr (t : Tag) (a : String) : Option String := alookup t.attrs a

/-- `tag[attr] = v`: replace the attribute's value, appending when absent. -/
def setA : List (String × String) → String → String → List (String × String)
  | [], a, v => [(a, v)]
  | (k, x) :: r, a, v => if k = a then (a, v) :: r else (k, x) :: setA r a v

/-- Attribute assignment on a tag. -/
def setAttr (t : Tag) (a v : String) : Tag := { t with attrs := setA t.attrs a v }

/-- The value `base` computed at lines 197-199: usually a string, but when
the document has a `<base>` element the code places the `bs4.Tag` object
itself (never its `href` target) into the joined list. -/
inductive JoinVal where
  | str (s : String) : JoinVal
  | tagObj (t : Tag) : JoinVal
deriving DecidableEq

/-- `doc('base', limit=1)`: the first `base` element of the document. -/
def firstBaseTag (doc : Doc) : Option Tag :=
  doc.nodes.findSome? fun n =>
    match n with
    | .tagNode t => if t.name = "base" then some t else none
    | .textNode => none

/-- The effective base computed by
`[up.urljoin(loc, base) for base in doc('base', limit=1) + [content_base]][0]`.
With no `<base>` element the single list entry is
`urljoin(loc, content_base)`.  With a `<base>` element, entry 0 is
`urljoin(loc, <Tag object>)`: `base` is a `bs4.Tag`, not its `href` string.
`<base>` is a void element, so the tag has no children and is falsy under
BeautifulSoup's `__len__`-based truth value; `urljoin`'s early returns
(`if not base: return url` / `if not url: return base`) therefore yield `loc`
when `loc` is non-empty and the Tag object itself when `loc` is empty, and
the `Content-Base` header entry at index 1 is never reached. -/
def effectiveBase (env : Env) (doc : Doc) (loc contentBase : String) : JoinVal :=
  match firstBaseTag doc with
  | some t => if loc = "" then JoinVal.tagObj t else JoinVal.str loc
  | none => JoinVal.str (env.urljoin loc contentBase)

/-- `up.urljoin(base, href)` at line 211, where `base` may be the falsy Tag
object: `if not base: return url` makes the join return `href` unchanged in
that case. -/
def joinBaseHref (env : Env) (b : JoinVal) (href : String) : String :=
  match b with
  | .str v => env.urljoin v href
  | .tagObj _ => href

/-- Lines 207-211: split the attribute value; a `cid` scheme resolves through
`by_id` on the split path, anything else through `by_loc` on the value joined
against the effective base. -/
def resolveRef (env : Env) (idx : Index) (b : JoinVal) (href : String) :
    Option Part :=
  let sp := env.urlsplit href
  if sp.scheme = "cid" then alookup idx.by_id sp.path
  else alookup idx.by_loc (joinBaseHref env b href)

/-- Python `data.encode('utf-8')` as a byte list. -/
def utf8Bytes (s : String) : List Nat := s.toUTF8.toList.map (fun b => b.toNat)

/-- The two non-HTML arms of `Mapped.render` (lines 217-219): textual payloads
are UTF-8 encoded and charset-tagged, raw payloads pass through unchanged. -/
def plainPair (h : PartHelper) : List Nat × String :=
  match h.payload with
  | .str s => (utf8Bytes s, h.content_type ++ ";charset=utf8")
  | .bytes b => (b, h.content_type)

/-! ### Inline strategy -/

/-- `InlineData.render_data`.  A null part yields `None`; a part whose digest
is already in `seen` yields `None`.  For a fresh part, line 102 evaluates
`seen | {ph}` where the name `ph` is bound nowhere in the module, so Python
raises `NameError` while evaluating the arguments, before `self.render` is
ever entered; the data-URI line 103 is unreachable. -/
def InlineData.render_data (env : Env) (seen : Finset String)
    (p : Option Part) (st : ExtState) : Except PyErr (Option String × ExtState) :=
  match p with
  | none => .ok (none, st)
  | some q =>
      let r := PartHelper.init env st q
      if r.1.digest ∈ seen then .ok (none, r.2)
      else .error (.nameError "ph")

/-- The attribute loop of `Mapped.render` for the inline strategy: for each
listed attribute, trim the value, skip empties, resolve, call `render_data`
(propagating any raised error), and rewrite the attribute when the result is
not `None`. -/
def procAttrsI (rd : Option Part → ExtState → Except PyErr (Option String × ExtState))
    (env : Env) (idx : Index) (b : JoinVal) :
    List String → Tag → ExtState → Except PyErr (Tag × ExtState)
  | [], t, st => .ok (t, st)
  | a :: rest, t, st =>
      let href := pyStrip ((getAttr t a).getD "")
      if href = "" then procAttrsI rd env idx b rest t st
      else
        match rd (resolveRef env idx b href) st with
        | .error e => .error e
        | .ok (res, st') =>
            let t' := match res with
              | some uri => setAttr t a uri
              | none => t
            procAttrsI rd env idx b rest t' st'

/-- The descendants loop for the inline strategy: non-element nodes are
skipped, elements have their reference attributes processed in document
order. -/
def procNodesI (rd : Option Part → ExtState → Except PyErr (Option String × ExtState))
    (env : Env) (idx : Index) (b : JoinVal) :
    List Node → ExtState → Except PyErr (List Node × ExtState)
  | [], st => .ok ([], st)
  | .textNode :: rest, st =>
      match procNodesI rd env idx b rest st with
      | .error e => .error e
      | .ok (ns, st') => .ok (.textNode :: ns, st')
  | .tagNode t :: rest, st =>
      match procAttrsI rd env idx b (refsFor t.name) t st with
      | .error e => .error e
      | .ok (t', st') =>
          match procNodesI rd env idx b rest st' with
          | .error e => .error e
          | .ok (ns, st'') => .ok (.tagNode t' :: ns, st'')

/-- `Mapped.render` under the inline strategy (`MappedInline`), on an
already-wrapped helper.  HTML parts are parsed, their references processed
and the tree re-encoded; textual payloads are UTF-8 tagged; raw payloads
pass through. -/
def MappedInline.render (env : Env) (idx : Index) (h : PartHelper)
    (seen : Finset String) (st : ExtState) :
    Except PyErr (List Nat × String × ExtState) :=
  if h.content_type = "text/html" then
    let doc := env.parseHtml h.payload
    let loc := pyStrip (h.part.contentLocation.getD "")
    let b := effectiveBase env doc loc (h.part.contentBase.getD "")
    match procNodesI (fun p st' => InlineData.render_data env seen p st')
        env idx b doc.nodes st with
    | .error e => .error e
    | .ok (ns, st') => .ok (env.encodeDoc ⟨ns⟩, "text/html;charset=utf8", st')
  else
    match h.payload with
    | .str s => .ok (utf8Bytes s, h.content_type ++ ";charset=utf8", st)
    | .bytes b => .ok (b, h.content_type, st)

/-! ### Directory strategy

`DataDirectory.render_data` and `Mapped.render` are mutually recursive.  The
recursion is embedded with an explicit fuel parameter; `none` means the fuel
ran out.  The termination theorem for claim C3 shows that a fuel bounded by
the number of indexed digests is always sufficient, which is exactly the
cycle-safety argument: each recursive step inserts a fresh indexed digest
into the guard set. -/

/-- The long-lived mutable state of the directory variant: the set of
existing files on the backing store (`op.exists` / `open(path, "wb")`), the
extension cache, and a reverse-chronological log of write events (newest
first), kept to state the dedup claims. -/
structure W where
  fs : List String
  exts : ExtState
  wlog : List String

/-- The deterministic relative filename `"blob=" + digest + extension`. -/
def blobPath (digest extension : String) : String :=
  "blob=" ++ digest ++ extension

/-- The body of `DataDirectory.render_data`, parameterized by the recursive
`self.render` it calls: null part yields `None`; otherwise wrap the part,
short-circuit on a digest already in `seen` or an already-existing file, and
otherwise render with the digest added to the guard set and write the
resulting bytes to the blob file. -/
def renderDataAux
    (render1 : PartHelper → Finset String → W → Option (List Nat × String × W))
    (env : Env) (seen : Finset String) (p : Option Part) (w : W) :
    Option (Option String × W) :=
  match p with
  | none => some (none, w)
  | some q =>
      let r := PartHelper.init env w.exts q
      let h := r.1
      let w1 : W := { w with exts := r.2 }
      let path := blobPath h.digest h.extension
      if h.digest ∈ seen then some (some path, w1)
      else if path ∈ w1.fs then some (some path, w1)
      else
        match render1 h (insert h.digest seen) w1 with
        | none => none
        | some (_bin, _ct, w2) =>
            some (some path, { w2 with fs := path :: w2.fs, wlog := path :: w2.wlog })

/-- The attribute loop of `Mapped.render` for the directory strategy. -/
def procAttrsD (rd : Option Part → W → Option (Option String × W))
    (env : Env) (idx : Index) (b : JoinVal) :
    List String → Tag → W → Option (Tag × W)
  | [], t, w => some (t, w)
  | a :: rest, t, w =>
      let href := pyStrip ((getAttr t a).getD "")
      if href = "" then procAttrsD rd env idx b rest t w
      else
        match rd (resolveRef env idx b href) w with
        | none => none
        | some (res, w') =>
            let t' := match res with
              | some uri => setAttr t a uri
              | none => t
            procAttrsD rd env idx b rest t' w'

/-- The descendants loop of `Mapped.render` for the directory strategy. -/
def procNodesD (rd : Option Part → W → Option (Option String × W))
    (env : Env) (idx : Index) (b : JoinVal) :
    List Node → W → Option (List Node × W)
  | [], w => some ([], w)
  | .textNode :: rest, w =>
      match procNodesD rd env idx b rest w with
      | none => none
      | some (ns, w') => some (.textNode :: ns, w')
  | .tagNode t :: rest, w =>
      match procAttrsD rd env idx b (refsFor t.name) t w with
      | none => none
      | some (t', w') =>
          match procNodesD rd env idx b rest w' with
          | none => none
          | some (ns, w'') => some (.tagNode t' :: ns, w'')

/-- `Mapped.render` under the directory strategy (`MappedRelative`), on an
already-wrapped helper, with explicit fuel. -/
def MappedRelative.render (fuel : Nat) (env : Env) (idx : Index) :
    PartHelper → Finset String → W → Option (List Nat × String × W) :=
  match fuel with
  | 0 => fun _ _ _ => none
  | n + 1 => fun h seen w =>
      if h.content_type = "text/html" then
        let doc := env.parseHtml h.payload
        let loc := pyStrip (h.part.contentLocation.getD "")
        let b := effectiveBase env doc loc (h.part.contentBase.getD "")
        match procNodesD
            (renderDataAux
              (fun h' s' w' => MappedRelative.render n env idx h' s' w') env seen)
            env idx b doc.nodes w with
        | none => none
        | some (ns, w') => some (env.encodeDoc ⟨ns⟩, "text/html;charset=utf8", w')
      else
        match h.payload with
        | .str s => some (utf8Bytes s, h.content_type ++ ";charset=utf8", w)
        | .bytes bs => some (bs, h.content_type, w)

/-- `DataDirectory.render_data` with explicit fuel for the recursive
`self.render`. -/
def DataDirectory.render_data (fuel : Nat) (env : Env) (idx : Index)
    (seen : Finset String) (p : Option Part) (w : W) :
    Option (Option String × W) :=
  renderDataAux (fun h s w' => MappedRelative.render fuel env idx h s w')
    env seen p w

/-- `Mapped.render` called on a raw (unwrapped) part, as the driver does on
the entry part: the `isinstance` branch wraps it in a `PartHelper` first. -/
def MappedRelative.renderPart (fuel : Nat) (env : Env) (idx : Index)
    (p : Part) (seen : Finset String) (w : W) :
    Option (List Nat × String × W) :=
  let r := PartHelper.init env w.exts p
  MappedRelative.render fuel env idx r.1 seen { w with exts := r.2 }

/-! ### Concrete instances used to evaluate the embedding -/

/-- A fixed 44-character digest value, the length of
`urlsafe_b64encode(sha256(...).digest())`. -/
def dC : String := "AAAAAAAAAAAAAAAAAAAAAAAAAAAAAAAAAAAAAAAAAAA="

/-- A concrete collaborator environment: sniffing always reports
`image/png`, the registry knows no extensions, every payload digests to
`dC`, and URL splitting treats `cid:x` as the one content-ID URL. -/
def envC : Env :=
  { magic := some (fun _ => some "image/png"),
    guessAllExtensions := fun _ => [],
    sha256b64 := fun _ => dC,
    urljoin := fun b u => b ++ "|" ++ u,
    urlsplit := fun s => if s = "cid:x" then ⟨"cid", "x"⟩ else ⟨"http", s⟩,
    parseHtml := fun _ => ⟨[]⟩,
    encodeDoc := fun _ => [] }

/-- A concrete plain-text part. -/
def pC1 : Part :=
  { contentType := "text/plain", payload := .bytes [120],
    contentLocation := none, contentBase := none,
    contentId := none, startParam := none }

/-- A concrete untyped binary part (declared as the octet-stream
placeholder, so the sniffer's answer wins). -/
def pC6 : Part :=
  { contentType := "application/octet-stream", payload := .bytes [1, 2, 3],
    contentLocation := none, contentBase := none,
    contentId := none, startParam := none }

/-- An empty index. -/
def idxC : Index := { by_loc := [], by_id := [] }

/-- An empty directory-variant state with the initial extension cache. -/
def w0C : W := { fs := [], exts := common_types, wlog := [] }

/-- An index mapping the content-ID `x` to the plain-text part. -/
def idxC2 : Index := { by_loc := [], by_id := [("x", pC1)] }

/-- An `img` element referencing the content-ID URL `cid:x`. -/
def tC : Tag := ⟨"img", [("src", "cid:x")]⟩

/-- A concrete document containing a `<base>` element with an `href`
target. -/
def docC5 : Doc := ⟨[Node.tagNode ⟨"base", [("href", "http://base.example/")]⟩]⟩

/-- Run a sequence of `find_extension` calls against the shared cache,
returning the final cache: used to speak about later calls in claim C10. -/
def runCalls (env : Env) (st : ExtState) : List String → ExtState
  | [] => st
  | m :: ms => runCalls env (find_extension env st m).2 ms

/-- The storage-growth invariant of the directory variant: the final state
extends the initial one by a list `L` of freshly written blob files (newest
first), no path is written twice or over an existing file, and every write
is at the blob name of a rendered payload whose digest is outside the guard
set `seen`. -/
def WGrows (env : Env) (seen : Finset String) (w w' : W) : Prop :=
  ∃ L, w'.fs = L ++ w.fs ∧ w'.wlog = L ++ w.wlog ∧ L.Nodup
    ∧ (∀ q ∈ L, q ∉ w.fs)
    ∧ (∀ q ∈ L, ∃ pl e, q = blobPath (env.sha256b64 pl) e
        ∧ env.sha256b64 pl ∉ seen)

/-! ### Claims -/

/-- C1: the spec says the inline `render_data` on a fresh non-null part
recursively renders it with the digest added to the guard set and returns a
base64 data URI.  The code instead evaluates `seen | {ph}` at line 102,
where `ph` is bound nowhere, and raises `NameError` before `self.render` is
entered: on the concrete fresh part `pC1` the result is the `NameError`,
not a data URI. -/
theorem claim1_inline_name_error :
    InlineData.render_data envC ∅ (some pC1) common_types
      = .error (.nameError "ph") := rfl

/-- C2 counterexample: the claim says both variants return null when the
digest is already in the guard set, but the directory variant returns the
blob path: on `pC1` with its digest `dC` already in `seen`, `render_data`
returns `some "blob=...txt"`, which is not null. -/
theorem claim2_counterexample :
    DataDirectory.render_data 1 envC idxC {dC} (some pC1) w0C
        = some (some (blobPath dC ".txt"), w0C)
      ∧ (some (blobPath dC ".txt") : Option String) ≠ none :=
  ⟨rfl, by simp⟩

/-- C2 as amended: both variants return null on a null part; on a digest
already in the guard set the inline variant returns null, so an attribute
whose resolved target is on the recursion path is left unmodified, while
the directory variant returns the blob path without re-rendering or
touching the store, so such an attribute is rewritten to the blob path. -/
theorem claim2_null_and_guard (env : Env) (idx : Index) (seen : Finset String)
    (st : ExtState) (w : W) (fuel : Nat) :
    InlineData.render_data env seen none st = .ok (none, st)
    ∧ (∀ p, (PartHelper.init env st p).1.digest ∈ seen →
        InlineData.render_data env seen (some p) st
          = .ok (none, (PartHelper.init env st p).2))
    ∧ DataDirectory.render_data fuel env idx seen none w = some (none, w)
    ∧ (∀ p, (PartHelper.init env w.exts p).1.digest ∈ seen →
        DataDirectory.render_data fuel env idx seen (some p) w
          = some (some (blobPath (PartHelper.init env w.exts p).1.digest
                          (PartHelper.init env w.exts p).1.extension),
                  { w with exts := (PartHelper.init env w.exts p).2 }))
    ∧ (∀ (b : JoinVal) (t : Tag) (a : String) (q : Part),
        pyStrip ((getAttr t a).getD "") ≠ "" →
        resolveRef env idx b (pyStrip ((getAttr t a).getD "")) = some q →
        (PartHelper.init env st q).1.digest ∈ seen →
        procAttrsI (fun p st' => InlineData.render_data env seen p st')
            env idx b [a] t st = .ok (t, (PartHelper.init env st q).2))
    ∧ (∀ (b : JoinVal) (t : Tag) (a : String) (q : Part),
        pyStrip ((getAttr t a).getD "") ≠ "" →
        resolveRef env idx b (pyStrip ((getAttr t a).getD "")) = some q →
        (PartHelper.init env w.exts q).1.digest ∈ seen →
        procAttrsD (DataDirectory.render_data fuel env idx seen) env idx b [a] t w
          = some (setAttr t a (blobPath (PartHelper.init env w.exts q).1.digest
                                 (PartHelper.init env w.exts q).1.extension),
                  { w with exts := (PartHelper.init env w.exts q).2 })) := by
  refine ⟨rfl, fun p hp => ?_, rfl, fun p hp => ?_,
    fun b t a q h1 h2 h3 => ?_, fun b t a q h1 h2 h3 => ?_⟩
  · simp [InlineData.render_data, hp]
  · simp [DataDirectory.render_data, renderDataAux, hp]
  · simp only [procAttrsI]
    rw [if_neg h1, h2]
    simp [InlineData.render_data, h3, procAttrsI]
  · simp only [procAttrsD]
    rw [if_neg h1, h2]
    simp [DataDirectory.render_data, renderDataAux, h3, procAttrsD]

/-- C2 witness: the amended statement instantiated on concrete inputs,
including an `img` element whose `cid:x` reference resolves to a guarded
part: the inline loop leaves it unmodified, the directory loop rewrites
it to the blob path. -/
theorem claim2_witness :
    InlineData.render_data envC {dC} none common_types = .ok (none, common_types)
    ∧ InlineData.render_data envC {dC} (some pC1) common_types
        = .ok (none, common_types)
    ∧ DataDirectory.render_data 1 envC idxC2 {dC} none w0C = some (none, w0C)
    ∧ DataDirectory.render_data 1 envC idxC2 {dC} (some pC1) w0C
        = some (some (blobPath dC ".txt"), w0C)
    ∧ procAttrsI (fun p st' => InlineData.render_data envC {dC} p st')
        envC idxC2 (JoinVal.str "") ["src"] tC common_types
        = .ok (tC, common_types)
    ∧ procAttrsD (DataDirectory.render_data 1 envC idxC2 {dC})
        envC idxC2 (JoinVal.str "") ["src"] tC w0C
        = some (setAttr tC "src" (blobPath dC ".txt"), w0C) := by
  obtain ⟨a, b, c, d, e, f⟩ := claim2_null_and_guard envC idxC2 {dC} common_types w0C 1
  exact ⟨a, b pC1 (by decide), c, d pC1 (by decide),
    e (JoinVal.str "") tC "src" pC1 (by decide) (by decide) (by decide),
    f (JoinVal.str "") tC "src" pC1 (by decide) (by decide) (by decide)⟩

/-- C4: a `cid`-scheme value resolves through `by_id` on the URL's path
component, unaffected by whatever the `by_loc` table holds; any other scheme
resolves through `by_loc` under the value joined against the effective
base. -/
theorem claim4_resolution_precedence (env : Env) (idx : Index) (b : JoinVal)
    (href : String) :
    ((env.urlsplit href).scheme = "cid" →
      resolveRef env idx b href = alookup idx.by_id (env.urlsplit href).path
      ∧ ∀ locTbl, resolveRef env { idx with by_loc := locTbl } b href
          = alookup idx.by_id (env.urlsplit href).path)
    ∧ ((env.urlsplit href).scheme ≠ "cid" →
      resolveRef env idx b href
        = alookup idx.by_loc (joinBaseHref env b href)) := by
  refine ⟨fun hs => ⟨?_, fun locTbl => ?_⟩, fun hs => ?_⟩ <;>
    simp [resolveRef, hs]

/-- C4 witness: under `envC`, `cid:x` splits with scheme `cid` and resolves
by ID, while `y` splits with scheme `http` and resolves by location. -/
theorem claim4_witness :
    resolveRef envC idxC (JoinVal.str "") "cid:x"
        = alookup idxC.by_id (envC.urlsplit "cid:x").path
    ∧ resolveRef envC idxC (JoinVal.str "") "y"
        = alookup idxC.by_loc (joinBaseHref envC (JoinVal.str "") "y") :=
  ⟨((claim4_resolution_precedence envC idxC (JoinVal.str "") "cid:x").1 rfl).1,
   (claim4_resolution_precedence envC idxC (JoinVal.str "") "y").2 (by decide)⟩

/-- C5: the spec says the effective base is the `<base>` element's target
when one exists, joined against the part's Content-Location.  The code never
reads the `<base>` tag's `href`: it passes the Tag object itself to
`urljoin`, which (the empty void tag being falsy) returns the
Content-Location unchanged, ignoring both the `<base>` target and the
Content-Base header.  Evaluated at a concrete document carrying
`<base href="http://base.example/">`. -/
theorem claim5_base_target_ignored :
    effectiveBase envC docC5 "http://loc.example/p" "http://cb.example/"
        = .str "http://loc.example/p"
    ∧ joinBaseHref envC
        (effectiveBase envC docC5 "http://loc.example/p" "http://cb.example/")
        "img.png"
        = envC.urljoin "http://loc.example/p" "img.png"
    ∧ JoinVal.str "http://loc.example/p"
        ≠ JoinVal.str (envC.urljoin "http://loc.example/p" "http://base.example/") :=
  ⟨rfl, rfl, by decide⟩

/-- C6 counterexample: the claim says a non-textual, non-HTML part renders
to its original declared content type.  With content sniffing available, a
part declared `application/octet-stream` whose payload sniffs as
`image/png` renders with content type `image/png`, not the declared one. -/
theorem claim6_counterexample :
    MappedInline.render envC idxC (PartHelper.init envC common_types pC6).1
        ∅ common_types
      = .ok ([1, 2, 3], "image/png", common_types)
    ∧ "image/png" ≠ "application/octet-stream" :=
  ⟨rfl, by decide⟩

/-- C6 as amended: a part whose payload is a byte sequence and whose
effective content type (declared type, with the octet-stream/absent
placeholder replaced by the sniffed type) is not HTML renders, in both
variants, to exactly its payload bytes and that effective content type. -/
theorem claim6_raw_roundtrip (env : Env) (idx : Index) (st st2 : ExtState)
    (w : W) (fuel : Nat) (seen : Finset String) (p : Part) (bs : List Nat)
    (hb : (PartHelper.init env st p).1.payload = .bytes bs)
    (ht : (PartHelper.init env st p).1.content_type ≠ "text/html") :
    MappedInline.render env idx (PartHelper.init env st p).1 seen st2
        = .ok (bs, (PartHelper.init env st p).1.content_type, st2)
    ∧ MappedRelative.render (fuel + 1) env idx (PartHelper.init env st p).1 seen w
        = some (bs, (PartHelper.init env st p).1.content_type, w) := by
  constructor
  · simp [MappedInline.render, ht, hb]
  · simp [MappedRelative.render, ht, hb]

/-- C6 witness: the amended statement instantiated on the sniffed
octet-stream part. -/
theorem claim6_witness :
    MappedInline.render envC idxC (PartHelper.init envC common_types pC6).1
        ∅ common_types
      = .ok ([1, 2, 3], (PartHelper.init envC common_types pC6).1.content_type,
             common_types)
    ∧ MappedRelative.render 1 envC idxC (PartHelper.init envC common_types pC6).1
        ∅ w0C
      = some ([1, 2, 3], (PartHelper.init envC common_types pC6).1.content_type,
              w0C) :=
  claim6_raw_roundtrip envC idxC common_types common_types w0C 0 ∅ pC6 [1, 2, 3]
    rfl (by decide)

/-- C8: for a helper whose effective content type is not `text/html`, the
rendered result is the same for every two guard sets, in both storage
variants: the guard set reaches the output only through HTML reference
substitution. -/
theorem claim8_guard_irrelevant_non_html (env : Env) (idx : Index)
    (h : PartHelper) (seen1 seen2 : Finset String) (st : ExtState) (w : W)
    (fuel : Nat) (ht : h.content_type ≠ "text/html") :
    MappedInline.render env idx h seen1 st = MappedInline.render env idx h seen2 st
    ∧ MappedRelative.render fuel env idx h seen1 w
        = MappedRelative.render fuel env idx h seen2 w := by
  constructor
  · simp [MappedInline.render, ht]
  · cases fuel with
    | zero => rfl
    | succ n => simp [MappedRelative.render, ht]

/-- C8 witness: the plain-text helper of `pC1` renders identically under the
empty guard set and under a singleton guard set. -/
theorem claim8_witness :
    MappedInline.render envC idxC (PartHelper.init envC common_types pC1).1
        ∅ common_types
      = MappedInline.render envC idxC (PartHelper.init envC common_types pC1).1
          {dC} common_types
    ∧ MappedRelative.render 1 envC idxC (PartHelper.init envC common_types pC1).1
        ∅ w0C
      = MappedRelative.render 1 envC idxC (PartHelper.init envC common_types pC1).1
          {dC} w0C :=
  claim8_guard_irrelevant_non_html envC idxC (PartHelper.init envC common_types pC1).1
    ∅ {dC} common_types w0C 1 (by decide)

/-- C9: a helper whose effective content type is not exactly `text/html` —
including `Text/HTML` or `application/xhtml+xml` — takes the textual or raw
branch: both variants return exactly the plain (non-markup) rendering of the
payload, and the result does not depend on the reference index, so no
reference is substituted. -/
theorem claim9_only_exact_html_rewritten (env : Env) (idx idx2 : Index)
    (h : PartHelper) (seen : Finset String) (st : ExtState) (w : W)
    (fuel : Nat) (ht : h.content_type ≠ "text/html") :
    MappedInline.render env idx h seen st
        = .ok ((plainPair h).1, (plainPair h).2, st)
    ∧ MappedRelative.render (fuel + 1) env idx h seen w
        = some ((plainPair h).1, (plainPair h).2, w)
    ∧ MappedInline.render env idx2 h seen st = MappedInline.render env idx h seen st := by
  refine ⟨?_, ?_, ?_⟩ <;>
    cases hp : h.payload <;>
      simp [MappedInline.render, MappedRelative.render, plainPair, ht, hp]

/-- C9 witness: a helper carrying the differently-cased type `Text/HTML`
takes the raw branch in both variants. -/
theorem claim9_witness :
    MappedInline.render envC idxC
        ⟨pC1, "Text/HTML", .bytes [60], ".html", dC⟩ ∅ common_types
      = .ok ([60], "Text/HTML", common_types)
    ∧ MappedRelative.render 1 envC idxC
        ⟨pC1, "Text/HTML", .bytes [60], ".html", dC⟩ ∅ w0C
      = some ([60], "Text/HTML", w0C) := by
  have h := claim9_only_exact_html_rewritten envC idxC idxC
    ⟨pC1, "Text/HTML", .bytes [60], ".html", dC⟩ ∅ common_types w0C 0 (by decide)
  exact ⟨h.1, h.2.1⟩

/-- Python's ASCII lower-casing is idempotent on characters. -/
theorem lowerChar_idem (c : Char) : lowerChar (lowerChar c) = lowerChar c := by
  by_cases h : 65 ≤ c.toNat ∧ c.toNat ≤ 90
  · have hvalid : Nat.isValidChar (c.toNat + 32) := Or.inl (by omega)
    have hv : (Char.ofNat (c.toNat + 32)).toNat = c.toNat + 32 := by
      rw [Char.ofNat, dif_pos hvalid]; rfl
    simp only [lowerChar, if_pos h, hv]
    rw [if_neg (by omega)]
  · simp [lowerChar, h]

/-- `str.lower` is idempotent. -/
theorem strLower_idem (s : String) : strLower (strLower s) = strLower s := by
  simp only [strLower, List.map_map]
  exact congrArg String.mk (List.map_congr_left fun c _ => lowerChar_idem c)

/-- A `find_extension` cache hit returns the cached pair unchanged. -/
theorem find_extension_hit (env : Env) (st : ExtState) (m e : String)
    (h : alookup st (strLower m) = some e) :
    find_extension env st m = (e, st) := by
  simp [find_extension, h]

/-- After any `find_extension` call, the lower-cased argument is in the
cache and maps to the returned extension. -/
theorem find_extension_caches (env : Env) (st : ExtState) (m e : String)
    (st' : ExtState) (h : find_extension env st m = (e, st')) :
    alookup st' (strLower m) = some e := by
  simp only [find_extension] at h
  cases hl : alookup st (strLower m) with
  | some x => rw [hl] at h; cases h; exact hl
  | none => rw [hl] at h; cases h; simp [alookup]

/-- A `find_extension` call never disturbs an existing cache entry. -/
theorem find_extension_preserves (env : Env) (st : ExtState) (m k e : String)
    (h : alookup st k = some e) :
    alookup (find_extension env st m).2 k = some e := by
  simp only [find_extension]
  cases hl : alookup st (strLower m) with
  | some x => exact h
  | none =>
      have hne : ¬ strLower m = k := fun hk => by rw [hk, h] at hl; cases hl
      simp only [alookup]
      rw [if_neg hne]
      exact h

/-- A whole sequence of `find_extension` calls never disturbs an existing
cache entry. -/
theorem runCalls_preserves (env : Env) (k e : String) :
    ∀ (ms : List String) (st : ExtState), alookup st k = some e →
      alookup (runCalls env st ms) k = some e := by
  intro ms
  induction ms with
  | nil => intro st h; exact h
  | cons m ms ih =>
      intro st h
      exact ih _ (find_extension_preserves env st m k e h)

/-- C10: `find_extension` is case-insensitive in its argument; once a type
has been resolved, every later call with that type — whatever other types
are resolved in between — returns the same extension; and from the initial
table the resolution is the hard-coded entry, else the lexicographically
smallest registry candidate, else the empty string. -/
theorem claim10_find_extension_cached (env : Env) (st : ExtState) (m : String) :
    find_extension env st m = find_extension env st (strLower m)
    ∧ (∀ e st', find_extension env st m = (e, st') →
        ∀ ms, find_extension env (runCalls env st' ms) m
          = (e, runCalls env st' ms))
    ∧ (alookup common_types (strLower m)
          = some (find_extension env common_types m).1
       ∨ ((find_extension env common_types m).1 ∈ env.guessAllExtensions (strLower m)
          ∧ ∀ c ∈ env.guessAllExtensions (strLower m),
              (find_extension env common_types m).1 ≤ c)
       ∨ (env.guessAllExtensions (strLower m) = []
          ∧ (find_extension env common_types m).1 = "")) := by
  refine ⟨?_, ?_, ?_⟩
  · simp only [find_extension, strLower_idem]
  · intro e st' h ms
    exact find_extension_hit env _ m e
      (runCalls_preserves env (strLower m) e ms st' (find_extension_caches env st m e st' h))
  · cases hl : alookup common_types (strLower m) with
    | some x => left; rw [find_extension_hit env _ m x hl]
    | none =>
        have hv : (find_extension env common_types m).1
            = ((List.insertionSort (· ≤ ·) (env.guessAllExtensions (strLower m)))
                ++ [""]).headD "" := by
          simp [find_extension, hl]
        cases he : List.insertionSort (· ≤ ·) (env.guessAllExtensions (strLower m)) with
        | nil =>
            right; right
            have hnil : env.guessAllExtensions (strLower m) = [] :=
              List.Perm.eq_nil (he ▸ (List.perm_insertionSort (· ≤ ·) _)).symm |>.symm
              |>.symm
            refine ⟨hnil, ?_⟩
            rw [hv, he]; rfl
        | cons a t =>
            right; left
            have hmem : a ∈ env.guessAllExtensions (strLower m) :=
              (List.mem_insertionSort (· ≤ ·)).1 (he ▸ List.mem_cons_self a t)
            have hval : (find_extension env common_types m).1 = a := by
              rw [hv, he]; rfl
            have hs := List.sorted_insertionSort (· ≤ ·) (env.guessAllExtensions (strLower m))
            rw [he] at hs
            refine ⟨hval ▸ hmem, fun c hc => ?_⟩
            have hcm : c ∈ a :: t :=
              he ▸ (List.mem_insertionSort (· ≤ ·)).2 hc
            rw [hval]
            rcases List.mem_cons.1 hcm with h1 | h2
            · exact le_of_eq h1.symm
            · exact (List.sorted_cons.1 hs).1 c h2

/-- C10 witness: `Image/JPEG` resolves like `image/jpeg` from the initial
table, and keeps resolving to `.jpg` after an unrelated type has been
resolved in between. -/
theorem claim10_witness :
    find_extension envC common_types "Image/JPEG"
        = find_extension envC common_types (strLower "Image/JPEG")
    ∧ find_extension envC (runCalls envC common_types ["text/css"]) "Image/JPEG"
        = (".jpg", runCalls envC common_types ["text/css"]) := by
  obtain ⟨h1, h2, _⟩ := claim10_find_extension_cached envC common_types "Image/JPEG"
  exact ⟨h1, h2 ".jpg" common_types rfl ["text/css"]⟩

/-- A successful association-list lookup returns a stored value. -/
theorem alookup_mem {α : Type} :
    ∀ (l : List (String × α)) (k : String) (x : α),
      alookup l k = some x → x ∈ l.map Prod.snd := by
  intro l
  induction l with
  | nil => intro k x h; cases h
  | cons p r ih =>
      intro k x h
      simp only [alookup] at h
      by_cases hk : p.1 = k
      · rw [if_pos hk] at h
        cases h
        exact List.mem_cons_self _ _
      · rw [if_neg hk] at h
        exact List.mem_cons_of_mem _ (ih k x h)

/-- Every part found by `resolveRef` comes from one of the two index
tables. -/
theorem resolveRef_parts (env : Env) (idx : Index) (b : JoinVal) (href : String)
    (p : Part) (h : resolveRef env idx b href = some p) : p ∈ idx.parts := by
  simp only [resolveRef] at h
  unfold Index.parts
  split at h
  · exact List.mem_append_right _ (alookup_mem _ _ _ h)
  · exact List.mem_append_left _ (alookup_mem _ _ _ h)

/-- The digest of an indexed part lies in `allDigests`. -/
theorem digest_mem_allDigests (env : Env) (idx : Index) (p : Part)
    (hp : p ∈ idx.parts) : env.sha256b64 p.payload ∈ allDigests env idx := by
  rw [allDigests, List.mem_toFinset]
  exact List.mem_map.2 ⟨p, hp, rfl⟩

/-- If the reference callback always succeeds on indexed (or null) parts,
the attribute loop succeeds. -/
theorem procAttrsD_isSome (rd : Option Part → W → Option (Option String × W))
    (env : Env) (idx : Index) (b : JoinVal)
    (hrd : ∀ p w, (p = none ∨ ∃ q, q ∈ idx.parts ∧ p = some q) → (rd p w).isSome) :
    ∀ (attrs : List String) (t : Tag) (w : W),
      (procAttrsD rd env idx b attrs t w).isSome := by
  intro attrs
  induction attrs with
  | nil => intro t w; simp [procAttrsD]
  | cons a rest ih =>
      intro t w
      simp only [procAttrsD]
      split
      · exact ih t w
      · have hok : (rd (resolveRef env idx b (pyStrip ((getAttr t a).getD ""))) w).isSome := by
          apply hrd
          cases hr : resolveRef env idx b (pyStrip ((getAttr t a).getD "")) with
          | none => exact Or.inl rfl
          | some q => exact Or.inr ⟨q, resolveRef_parts env idx b _ q hr, rfl⟩
        cases hr : rd (resolveRef env idx b (pyStrip ((getAttr t a).getD ""))) w with
        | none => rw [hr] at hok; cases hok
        | some v =>
            obtain ⟨res, w'⟩ := v
            cases res <;> exact ih _ _

/-- If the reference callback always succeeds on indexed (or null) parts,
the descendants loop succeeds. -/
theorem procNodesD_isSome (rd : Option Part → W → Option (Option String × W))
    (env : Env) (idx : Index) (b : JoinVal)
    (hrd : ∀ p w, (p = none ∨ ∃ q, q ∈ idx.parts ∧ p = some q) → (rd p w).isSome) :
    ∀ (ns : List Node) (w : W), (procNodesD rd env idx b ns w).isSome := by
  intro ns
  induction ns with
  | nil => intro w; simp [procNodesD]
  | cons n rest ih =>
      intro w
      cases n with
      | textNode =>
          simp only [procNodesD]
          split
          · rename_i hnone
            exact absurd hnone (Option.isSome_iff_ne_none.1 (ih w))
          · simp
      | tagNode t =>
          simp only [procNodesD]
          split
          · rename_i hnone
            exact absurd hnone
              (Option.isSome_iff_ne_none.1 (procAttrsD_isSome rd env idx b hrd (refsFor t.name) t w))
          · rename_i t' w' ha
            split
            · rename_i hnone
              exact absurd hnone (Option.isSome_iff_ne_none.1 (ih w'))
            · simp

/-- Fuel sufficiency for the directory-variant renderer: any fuel exceeding
the number of indexed digests not yet in the guard set makes the renderer
total.  Each recursive step inserts a fresh indexed digest into the guard
set, so the measure strictly decreases. -/
theorem render_isSome (env : Env) (idx : Index) :
    ∀ (m : Nat) (seen : Finset String), ((allDigests env idx) \ seen).card ≤ m →
      ∀ (fuel : Nat), m + 1 ≤ fuel → ∀ (h : PartHelper) (w : W),
        (MappedRelative.render fuel env idx h seen w).isSome := by
  intro m
  induction m with
  | zero =>
      intro seen hc fuel hf h w
      cases fuel with
      | zero => omega
      | succ n =>
          simp only [MappedRelative.render]
          split
          · have hrd : ∀ p w', (p = none ∨ ∃ q, q ∈ idx.parts ∧ p = some q) →
                (renderDataAux (fun h' s' w'' => MappedRelative.render n env idx h' s' w'')
                  env seen p w').isSome := by
              intro p w' hp
              rcases hp with rfl | ⟨q, hq, rfl⟩
              · simp [renderDataAux]
              · simp only [renderDataAux]
                split
                · simp
                · split
                  · simp
                  · exfalso
                    have hd : (PartHelper.init env w'.exts q).1.digest
                        = env.sha256b64 q.payload := rfl
                    have hmem : (PartHelper.init env w'.exts q).1.digest
                        ∈ allDigests env idx := hd ▸ digest_mem_allDigests env idx q hq
                    have hsd : (PartHelper.init env w'.exts q).1.digest
                        ∈ allDigests env idx \ seen := by
                      rw [Finset.mem_sdiff]
                      constructor
                      · exact hmem
                      · assumption
                    have : (allDigests env idx \ seen).card = 0 := Nat.le_zero.1 hc
                    rw [Finset.card_eq_zero] at this
                    rw [this] at hsd
                    cases hsd
            split
            · rename_i hnone
              exact absurd hnone
                (Option.isSome_iff_ne_none.1
                  (procNodesD_isSome _ env idx _ hrd (env.parseHtml h.payload).nodes w))
            · simp
          · cases h.payload <;> simp
  | succ m ih =>
      intro seen hc fuel hf h w
      cases fuel with
      | zero => omega
      | succ n =>
          simp only [MappedRelative.render]
          split
          · have hrd : ∀ p w', (p = none ∨ ∃ q, q ∈ idx.parts ∧ p = some q) →
                (renderDataAux (fun h' s' w'' => MappedRelative.render n env idx h' s' w'')
                  env seen p w').isSome := by
              intro p w' hp
              rcases hp with rfl | ⟨q, hq, rfl⟩
              · simp [renderDataAux]
              · simp only [renderDataAux]
                split
                · simp
                · split
                  · simp
                  · rename_i hnotseen hnotfs
                    have hd : (PartHelper.init env w'.exts q).1.digest
                        = env.sha256b64 q.payload := rfl
                    have hmem : (PartHelper.init env w'.exts q).1.digest
                        ∈ allDigests env idx := hd ▸ digest_mem_allDigests env idx q hq
                    have hsd : (PartHelper.init env w'.exts q).1.digest
                        ∈ allDigests env idx \ seen :=
                      Finset.mem_sdiff.2 ⟨hmem, hnotseen⟩
                    have hcard : ((allDigests env idx)
                        \ insert (PartHelper.init env w'.exts q).1.digest seen).card ≤ m := by
                      rw [Finset.sdiff_insert, Finset.card_erase_of_mem hsd]
                      omega
                    have hrec := ih (insert (PartHelper.init env w'.exts q).1.digest seen)
                      hcard n (by omega) (PartHelper.init env w'.exts q).1
                      { w' with exts := (PartHelper.init env w'.exts q).2 }
                    split
                    · rename_i hnone
                      exact absurd hnone (Option.isSome_iff_ne_none.1 hrec)
                    · simp
            split
            · rename_i hnone
              exact absurd hnone
                (Option.isSome_iff_ne_none.1
                  (procNodesD_isSome _ env idx _ hrd (env.parseHtml h.payload).nodes w))
            · simp
          · cases h.payload <;> simp

/-- Whatever a run of the renderer computes, the same run with more fuel
computes the same thing: the attribute loop under two successive fuels. -/
theorem procAttrsD_mono (env : Env) (idx : Index) (b : JoinVal)
    (rd rd' : Option Part → W → Option (Option String × W))
    (hagree : ∀ p w r, rd p w = some r → rd' p w = some r) :
    ∀ (attrs : List String) (t : Tag) (w : W) r,
      procAttrsD rd env idx b attrs t w = some r →
      procAttrsD rd' env idx b attrs t w = some r := by
  intro attrs
  induction attrs with
  | nil => intro t w r h; exact h
  | cons a rest ih =>
      intro t w r h
      simp only [procAttrsD] at h ⊢
      split at h
      · rename_i hc
        rw [if_pos hc]
        exact ih t w r h
      · rename_i hc
        rw [if_neg hc]
        split at h
        · cases h
        · rename_i res w' heq
          rw [hagree _ _ _ heq]
          exact ih _ w' r h

/-- Fuel monotonicity for the descendants loop. -/
theorem procNodesD_mono (env : Env) (idx : Index) (b : JoinVal)
    (rd rd' : Option Part → W → Option (Option String × W))
    (hagree : ∀ p w r, rd p w = some r → rd' p w = some r) :
    ∀ (ns : List Node) (w : W) r,
      procNodesD rd env idx b ns w = some r →
      procNodesD rd' env idx b ns w = some r := by
  intro ns
  induction ns with
  | nil => intro w r h; exact h
  | cons n rest ih =>
      intro w r h
      cases n with
      | textNode =>
          simp only [procNodesD] at h ⊢
          split at h
          · cases h
          · rename_i ns' w' heq
            rw [ih w (ns', w') heq]
            exact h
      | tagNode t =>
          simp only [procNodesD] at h ⊢
          split at h
          · cases h
          · rename_i t' w' heq
            rw [procAttrsD_mono env idx b rd rd' hagree (refsFor t.name) t w (t', w') heq]
            dsimp only
            split at h
            · cases h
            · rename_i ns' w'' heq2
              rw [ih w' (ns', w'') heq2]
              exact h

/-- Fuel monotonicity for `render_data`, given it for the recursive
renderer. -/
theorem renderDataAux_mono (env : Env) (seen : Finset String)
    (render1 render1' : PartHelper → Finset String → W → Option (List Nat × String × W))
    (hagree : ∀ h s w r, render1 h s w = some r → render1' h s w = some r) :
    ∀ (p : Option Part) (w : W) r,
      renderDataAux render1 env seen p w = some r →
      renderDataAux render1' env seen p w = some r := by
  intro p w r h
  cases p with
  | none => exact h
  | some q =>
      simp only [renderDataAux] at h ⊢
      split at h
      · rename_i hc
        rw [if_pos hc]
        exact h
      · rename_i hc
        rw [if_neg hc]
        split at h
        · rename_i hc2
          rw [if_pos hc2]
          exact h
        · rename_i hc2
          rw [if_neg hc2]
          split at h
          · cases h
          · rename_i bin1 ct1 w2 heq
            rw [hagree _ _ _ _ heq]
            exact h

/-- Fuel monotonicity for the directory-variant renderer: once some fuel
suffices, any larger fuel produces the identical result. -/
theorem render_mono (env : Env) (idx : Index) :
    ∀ (f f' : Nat), f ≤ f' →
      ∀ (h : PartHelper) (seen : Finset String) (w : W) r,
        MappedRelative.render f env idx h seen w = some r →
        MappedRelative.render f' env idx h seen w = some r := by
  intro f
  induction f with
  | zero =>
      intro f' hf h seen w r hr
      simp only [MappedRelative.render] at hr
      cases hr
  | succ n ih =>
      intro f' hf h seen w r hr
      cases f' with
      | zero => omega
      | succ n' =>
          have hn : n ≤ n' := by omega
          simp only [MappedRelative.render] at hr ⊢
          split at hr
          · rename_i hc
            rw [if_pos hc]
            split at hr
            · cases hr
            · rename_i ns w' heq
              rw [procNodesD_mono env idx _
                (renderDataAux (fun h' s' w'' => MappedRelative.render n env idx h' s' w'') env seen)
                (renderDataAux (fun h' s' w'' => MappedRelative.render n' env idx h' s' w'') env seen)
                (renderDataAux_mono env seen _ _
                  (fun h' s' w'' r' hrr => ih n' hn h' s' w'' r' hrr))
                (env.parseHtml h.payload).nodes w (ns, w') heq]
              exact hr
          · rename_i hc
            rw [if_neg hc]
            exact hr

/-- C3: rendering the entry part in the directory variant always terminates
with a result, whatever the reference graph — cycles and self-references
included — because every recursive step moves a fresh indexed digest into
the guard set; a fuel of one more than the number of indexed digests is
never exhausted, and every larger fuel yields the identical result, so the
recursion is genuinely well-founded rather than fuel-limited. -/
theorem claim3_cycle_termination (env : Env) (idx : Index) (p : Part)
    (seen : Finset String) (w : W) :
    (MappedRelative.renderPart ((allDigests env idx).card + 1) env idx p seen w).isSome
    ∧ ∀ fuel, (allDigests env idx).card + 1 ≤ fuel →
        MappedRelative.renderPart fuel env idx p seen w
          = MappedRelative.renderPart ((allDigests env idx).card + 1) env idx p seen w := by
  have hb : ((allDigests env idx) \ seen).card ≤ (allDigests env idx).card :=
    Finset.card_le_card (Finset.sdiff_subset)
  have hs := render_isSome env idx (allDigests env idx).card seen hb
    ((allDigests env idx).card + 1) (le_refl _)
    (PartHelper.init env w.exts p).1 { w with exts := (PartHelper.init env w.exts p).2 }
  constructor
  · exact hs
  · intro fuel hf
    obtain ⟨r, hr⟩ := Option.isSome_iff_exists.1 hs
    unfold MappedRelative.renderPart
    rw [hr, render_mono env idx _ fuel hf _ _ _ r hr]

/-- C3 witness: on the concrete empty index the bound is one, and fuel five
gives the same rendering as fuel one. -/
theorem claim3_witness :
    (MappedRelative.renderPart ((allDigests envC idxC).card + 1) envC idxC pC1 ∅ w0C).isSome
    ∧ MappedRelative.renderPart 5 envC idxC pC1 ∅ w0C
        = MappedRelative.renderPart ((allDigests envC idxC).card + 1) envC idxC pC1 ∅ w0C :=
  ⟨(claim3_cycle_termination envC idxC pC1 ∅ w0C).1,
   (claim3_cycle_termination envC idxC pC1 ∅ w0C).2 5 (by decide)⟩

/-- Blob filenames with equal-length digest components are injective in the
digest. -/
theorem blobPath_inj (d1 e1 d2 e2 : String) (hlen : d1.length = d2.length)
    (h : blobPath d1 e1 = blobPath d2 e2) : d1 = d2 ∧ e1 = e2 := by
  unfold blobPath at h
  have hd : ("blob=" ++ d1 ++ e1).data = ("blob=" ++ d2 ++ e2).data := by rw [h]
  rw [String.data_append, String.data_append, String.data_append, String.data_append,
    List.append_assoc, List.append_assoc] at hd
  have h3 := List.append_inj (List.append_cancel_left hd) hlen
  exact ⟨congrArg String.mk h3.1, congrArg String.mk h3.2⟩

/-- The growth invariant holds reflexively, also when only the extension
cache changed. -/
theorem WGrows_exts (env : Env) (seen : Finset String) (w : W) (st : ExtState) :
    WGrows env seen w { w with exts := st } :=
  ⟨[], rfl, rfl, List.nodup_nil, fun q hq => absurd hq (List.not_mem_nil q),
   fun q hq => absurd hq (List.not_mem_nil q)⟩

/-- The growth invariant holds reflexively. -/
theorem WGrows_self (env : Env) (seen : Finset String) (w : W) :
    WGrows env seen w w :=
  WGrows_exts env seen w w.exts

/-- The growth invariant composes. -/
theorem WGrows_trans (env : Env) (seen : Finset String) (w w1 w2 : W)
    (g1 : WGrows env seen w w1) (g2 : WGrows env seen w1 w2) :
    WGrows env seen w w2 := by
  obtain ⟨L1, hfs1, hlog1, hnd1, hfresh1, hdig1⟩ := g1
  obtain ⟨L2, hfs2, hlog2, hnd2, hfresh2, hdig2⟩ := g2
  refine ⟨L2 ++ L1, ?_, ?_, ?_, ?_, ?_⟩
  · rw [hfs2, hfs1, List.append_assoc]
  · rw [hlog2, hlog1, List.append_assoc]
  · refine List.Nodup.append hnd2 hnd1 ?_
    intro q hq2 hq1
    exact hfresh2 q hq2 (hfs1 ▸ List.mem_append_left _ hq1)
  · intro q hq
    rcases List.mem_append.1 hq with h2 | h1
    · intro hw
      exact hfresh2 q h2 (hfs1 ▸ List.mem_append_right _ hw)
    · exact hfresh1 q h1
  · intro q hq
    rcases List.mem_append.1 hq with h2 | h1
    · exact hdig2 q h2
    · exact hdig1 q h1

/-- The growth invariant is antitone in the guard set. -/
theorem WGrows_anti (env : Env) (seen seen' : Finset String) (w w' : W)
    (hsub : seen ⊆ seen') (g : WGrows env seen' w w') : WGrows env seen w w' := by
  obtain ⟨L, hfs, hlog, hnd, hfresh, hdig⟩ := g
  refine ⟨L, hfs, hlog, hnd, hfresh, fun q hq => ?_⟩
  obtain ⟨pl, e, hqe, hnot⟩ := hdig q hq
  exact ⟨pl, e, hqe, fun hmem => hnot (hsub hmem)⟩

/-- `render_data` preserves the growth invariant whenever the recursive
renderer it calls does, under guard sets extended by the fresh digest. -/
theorem renderDataAux_grows (env : Env) (seen : Finset String)
    (hL : ∀ pl, (env.sha256b64 pl).length = 44)
    (render1 : PartHelper → Finset String → W → Option (List Nat × String × W))
    (h1 : ∀ h s w r, render1 h s w = some r → WGrows env s w r.2.2) :
    ∀ (p : Option Part) (w : W) r,
      renderDataAux render1 env seen p w = some r → WGrows env seen w r.2 := by
  intro p w r hr
  cases p with
  | none =>
      simp only [renderDataAux] at hr
      cases hr
      exact WGrows_self env seen w
  | some q =>
      simp only [renderDataAux] at hr
      split at hr
      · cases hr; exact WGrows_exts env seen w _
      · split at hr
        · cases hr; exact WGrows_exts env seen w _
        · rename_i hnotseen hnotfs
          split at hr
          · cases hr
          · rename_i bin1 ct1 w2 heq
            cases hr
            have hg := h1 _ _ _ _ heq
            obtain ⟨L2, hfs, hlog, hnd, hfresh, hdig⟩ := hg
            dsimp only at hfs hlog hfresh
            refine ⟨blobPath (PartHelper.init env w.exts q).1.digest
                (PartHelper.init env w.exts q).1.extension :: L2, ?_, ?_, ?_, ?_, ?_⟩
            · simp only [List.cons_append]
              rw [hfs]
            · simp only [List.cons_append]
              rw [hlog]
            · refine List.nodup_cons.2 ⟨?_, hnd⟩
              intro hmem
              obtain ⟨pl, e, hqe, hnot⟩ := hdig _ hmem
              have hdg : (PartHelper.init env w.exts q).1.digest
                  = env.sha256b64 q.payload := rfl
              have := (blobPath_inj _ _ _ _ (by rw [hdg, hL, hL]) hqe).1
              rw [hdg] at this
              exact hnot (this ▸ Finset.mem_insert_self _ _)
            · intro x hx
              rcases List.mem_cons.1 hx with rfl | hx2
              · exact hnotfs
              · exact hfresh x hx2
            · intro x hx
              rcases List.mem_cons.1 hx with rfl | hx2
              · exact ⟨q.payload, (PartHelper.init env w.exts q).1.extension, rfl, hnotseen⟩
              · obtain ⟨pl, e, hqe, hnot⟩ := hdig x hx2
                exact ⟨pl, e, hqe, fun hmem => hnot (Finset.mem_insert_of_mem hmem)⟩

/-- The attribute loop preserves the growth invariant. -/
theorem procAttrsD_grows (env : Env) (seen : Finset String)
    (rd : Option Part → W → Option (Option String × W))
    (hrd : ∀ p w r, rd p w = some r → WGrows env seen w r.2)
    (idx : Index) (b : JoinVal) :
    ∀ (attrs : List String) (t : Tag) (w : W) r,
      procAttrsD rd env idx b attrs t w = some r → WGrows env seen w r.2 := by
  intro attrs
  induction attrs with
  | nil =>
      intro t w r h
      simp only [procAttrsD] at h
      cases h
      exact WGrows_self env seen w
  | cons a rest ih =>
      intro t w r h
      simp only [procAttrsD] at h
      split at h
      · exact ih t w r h
      · split at h
        · cases h
        · rename_i res w' heq
          exact WGrows_trans env seen w w' r.2 (hrd _ _ _ heq) (ih _ w' r h)

/-- The descendants loop preserves the growth invariant. -/
theorem procNodesD_grows (env : Env) (seen : Finset String)
    (rd : Option Part → W → Option (Option String × W))
    (hrd : ∀ p w r, rd p w = some r → WGrows env seen w r.2)
    (idx : Index) (b : JoinVal) :
    ∀ (ns : List Node) (w : W) r,
      procNodesD rd env idx b ns w = some r → WGrows env seen w r.2 := by
  intro ns
  induction ns with
  | nil =>
      intro w r h
      simp only [procNodesD] at h
      cases h
      exact WGrows_self env seen w
  | cons n rest ih =>
      intro w r h
      cases n with
      | textNode =>
          simp only [procNodesD] at h
          split at h
          · cases h
          · rename_i ns' w' heq
            cases h
            exact ih w (ns', w') heq
      | tagNode t =>
          simp only [procNodesD] at h
          split at h
          · cases h
          · rename_i t' w' heq
            split at h
            · cases h
            · rename_i ns' w'' heq2
              cases h
              exact WGrows_trans env seen w w' _
                (procAttrsD_grows env seen rd hrd idx b (refsFor t.name) t w (t', w') heq)
                (ih w' (ns', w'') heq2)

/-- The renderer only grows the backing store with fresh, uniquely named
blob files. -/
theorem render_grows (env : Env) (idx : Index)
    (hL : ∀ pl, (env.sha256b64 pl).length = 44) :
    ∀ (fuel : Nat) (h : PartHelper) (seen : Finset String) (w : W) r,
      MappedRelative.render fuel env idx h seen w = some r →
        WGrows env seen w r.2.2 := by
  intro fuel
  induction fuel with
  | zero =>
      intro h seen w r hr
      simp only [MappedRelative.render] at hr
      cases hr
  | succ n ih =>
      intro h seen w r hr
      simp only [MappedRelative.render] at hr
      split at hr
      · split at hr
        · cases hr
        · rename_i ns w' heq
          cases hr
          exact procNodesD_grows env seen _
            (renderDataAux_grows env seen hL _
              (fun h' s' w'' r' hrr => ih h' s' w'' r' hrr))
            idx _ _ w (ns, w') heq
      · split at hr <;> cases hr <;> exact WGrows_self env seen w

/-- C7: in the directory variant, a part whose digest is already in the
guard set or whose blob file already exists is answered with the blob path
alone — no re-rendering, no change to the store or write log; and every
successful `render_data` extends the store by a duplicate-free list of
freshly created files, each named `blob=<digest><extension>` for the digest
of some rendered payload, so no blob is ever written twice and a
digest+extension pair determines a unique file. -/
theorem claim7_dedup_idempotent (env : Env) (idx : Index)
    (hL : ∀ pl, (env.sha256b64 pl).length = 44) :
    (∀ (fuel : Nat) (seen : Finset String) (p : Part) (w : W),
      ((PartHelper.init env w.exts p).1.digest ∈ seen
        ∨ blobPath (PartHelper.init env w.exts p).1.digest
            (PartHelper.init env w.exts p).1.extension ∈ w.fs) →
      DataDirectory.render_data fuel env idx seen (some p) w
        = some (some (blobPath (PartHelper.init env w.exts p).1.digest
                        (PartHelper.init env w.exts p).1.extension),
                { w with exts := (PartHelper.init env w.exts p).2 }))
    ∧ (∀ (fuel : Nat) (seen : Finset String) (p : Option Part) (w : W) r,
        DataDirectory.render_data fuel env idx seen p w = some r →
        ∃ L, r.2.fs = L ++ w.fs ∧ r.2.wlog = L ++ w.wlog ∧ L.Nodup
          ∧ (∀ q ∈ L, q ∉ w.fs)
          ∧ (∀ q ∈ L, ∃ pl e, q = blobPath (env.sha256b64 pl) e)) := by
  constructor
  · intro fuel seen p w hp
    by_cases hd : (PartHelper.init env w.exts p).1.digest ∈ seen
    · simp [DataDirectory.render_data, renderDataAux, hd]
    · have hfs : blobPath (PartHelper.init env w.exts p).1.digest
          (PartHelper.init env w.exts p).1.extension ∈ w.fs := hp.resolve_left hd
      simp [DataDirectory.render_data, renderDataAux, hd, hfs]
  · intro fuel seen p w r hr
    have hg := renderDataAux_grows env seen hL _
      (fun h' s' w'' r' hrr => render_grows env idx hL fuel h' s' w'' r' hrr)
      p w r hr
    obtain ⟨L, hfs, hlog, hnd, hfresh, hdig⟩ := hg
    exact ⟨L, hfs, hlog, hnd, hfresh, fun q hq =>
      (hdig q hq).imp fun pl hpl => hpl.imp fun e hqe => hqe.1⟩

/-- C7 witness: on a concrete part whose digest is already in the guard set,
`render_data` returns the blob path with store and log untouched, and the
growth decomposition holds with the empty write list. -/
theorem claim7_witness :
    DataDirectory.render_data 1 envC idxC {dC} (some pC1) w0C
        = some (some (blobPath dC ".txt"), w0C)
    ∧ ∃ L, w0C.fs = L ++ w0C.fs ∧ w0C.wlog = L ++ w0C.wlog ∧ L.Nodup
        ∧ (∀ q ∈ L, q ∉ w0C.fs)
        ∧ (∀ q ∈ L, ∃ pl e, q = blobPath (envC.sha256b64 pl) e) := by
  have h := claim7_dedup_idempotent envC idxC (fun _ => rfl)
  constructor
  · exact h.1 1 {dC} pC1 w0C (Or.inl (by decide))
  · exact h.2 1 {dC} (some pC1) w0C (some (blobPath dC ".txt"), w0C)
      (h.1 1 {dC} pC1 w0C (Or.inl (by decide)))

end MhtUnpack
